import Mathlib

/-!
Shallow embedding of `TimepointApi`
(`src/Packages/ohif-measurements/both/configuration/timepoints.js`).

A `Timepoint` document carries the fields the code touches: the internal
Mongo identifier `_id`, the clinical fields, and the `locked` flag set by
`lock()`.  The in-memory minimongo collection is modelled as the list of
documents in natural (insertion) order plus a counter supplying fresh
`_id`s.  Queries with a `latestDate` sort option are modelled with
Mathlib's stable `List.insertionSort` (minimongo sorts with a stable
comparator sort).  The externally supplied `configuration.dataExchange`
functions are modelled as `Option`-valued entries of a `DataExchange`
record: `none` is an absent entry, and a present function always
resolves (the code never handles rejections, which are out of scope).
-/

structure Timepoint where
  _id : Nat
  timepointId : String
  patientId : String
  timepointType : String
  latestDate : Int
  studyInstanceUids : List String
  locked : Bool
deriving DecidableEq, Repr

/-- Descending `latestDate` order, i.e. the option `sort: { latestDate: -1 }`. -/
def dateDesc (a b : Timepoint) : Prop := b.latestDate ≤ a.latestDate

/-- Ascending `latestDate` order, i.e. the option `sort: { latestDate: 1 }`. -/
def dateAsc (a b : Timepoint) : Prop := a.latestDate ≤ b.latestDate

instance : DecidableRel dateDesc := fun a b => inferInstanceAs (Decidable (_ ≤ _))

instance : DecidableRel dateAsc := fun a b => inferInstanceAs (Decidable (_ ≤ _))

/-- The state of a `new Mongo.Collection(null)`: documents in natural
(insertion) order, and a counter producing fresh internal `_id`s. -/
structure Collection where
  docs : List Timepoint
  nextId : Nat
deriving DecidableEq, Repr

/-- `this.timepoints.insert(timepoint)` on a document whose `_id` was
deleted beforehand (as `retrieveTimepoints` does): minimongo assigns a
fresh internal `_id` and appends the document in natural order. -/
def Collection.insert (c : Collection) (t : Timepoint) : Collection :=
  { docs := c.docs ++ [{ t with _id := c.nextId }], nextId := c.nextId + 1 }

/-- `collection.update(selector, modifier)` with default options modifies
only the first matching document in natural order; the modifier never
changes the document's `_id`. -/
def updateFirstDoc (sel : Timepoint → Bool) (modifier : Timepoint → Timepoint) :
    List Timepoint → List Timepoint
  | [] => []
  | t :: rest =>
    if sel t then { modifier t with _id := t._id } :: rest
    else t :: updateFirstDoc sel modifier rest

def Collection.updateFirst (c : Collection) (sel : Timepoint → Bool)
    (modifier : Timepoint → Timepoint) : Collection :=
  { c with docs := updateFirstDoc sel modifier c.docs }

/-- The `configuration.dataExchange` object.  Each entry is optional; a
present function always resolves, returning the retrieved data for
`retrieve` and nothing observable locally for the others. -/
structure DataExchange where
  retrieve : Option (Option String → List Timepoint)
  store : Option (List Timepoint → Unit)
  update : Option (String → (Timepoint → Timepoint) → Unit)
  remove : Option (String → Unit)
  disassociate : Option (List String → String → Unit)

/-- A `TimepointApi` instance: the configured `currentTimepointId` (absent
when the constructor was given a falsy value) and the local collection. -/
structure TimepointApi where
  currentTimepointId : Option String
  timepoints : Collection
deriving Repr

/-- The constructor: `this.currentTimepointId` is assigned only when the
argument is truthy (in particular the empty string is not stored), and a
fresh empty local collection is created. -/
def mkTimepointApi (currentTimepointId : Option String) : TimepointApi :=
  { currentTimepointId :=
      match currentTimepointId with
      | none => none
      | some s => if s = "" then none else some s,
    timepoints := { docs := [], nextId := 0 } }

/-- `retrieveTimepoints(patientId)`: absent `retrieve` returns early;
otherwise each fetched record has its `_id` deleted and is inserted into
the local collection (which is not cleared first). -/
def TimepointApi.retrieveTimepoints (cfg : DataExchange) (api : TimepointApi)
    (patientId : Option String) : TimepointApi :=
  match cfg.retrieve with
  | none => api
  | some retrievalFn =>
    { api with timepoints := (retrievalFn patientId).foldl Collection.insert api.timepoints }

/-- `storeTimepoints()`: absent `store` returns early; otherwise the full
local set is serialized out, with no local mutation. -/
def TimepointApi.storeTimepoints (cfg : DataExchange) (api : TimepointApi) : TimepointApi :=
  match cfg.store with
  | none => api
  | some storeFn =>
    let _ := storeFn api.timepoints.docs
    api

/-- `all()`: every document, sorted by `latestDate` descending. -/
def TimepointApi.all (api : TimepointApi) : List Timepoint :=
  List.insertionSort dateDesc api.timepoints.docs

/-- `current()`: `findOne({ timepointId: this.currentTimepointId })`; with
no sort option minimongo returns the first match in natural order, and
an unset `currentTimepointId` matches no document (every document has a
`timepointId`). -/
def TimepointApi.current (api : TimepointApi) : Option Timepoint :=
  match api.currentTimepointId with
  | none => none
  | some cid => api.timepoints.docs.find? (fun t => t.timepointId == cid)

/-- `lock()`: returns early when there is no current record; otherwise
sets `locked: true` on the document with the current record's `_id`.  No
external function is involved. -/
def TimepointApi.lock (api : TimepointApi) : TimepointApi :=
  match api.current with
  | none => api
  | some cur =>
    { api with
      timepoints := api.timepoints.updateFirst (fun t => t._id == cur._id)
        (fun t => { t with locked := true }) }

/-- `prior()`: none without a current record; otherwise
`findOne({ latestDate: { $lt: current.latestDate } })` sorted by
`latestDate` descending, i.e. the head of the sorted matching list. -/
def TimepointApi.prior (api : TimepointApi) : Option Timepoint :=
  match api.current with
  | none => none
  | some cur =>
    (List.insertionSort dateDesc
      (api.timepoints.docs.filter (fun t => decide (t.latestDate < cur.latestDate)))).head?

/-- `currentAndPrior()`: pushes `current` when present, then `prior` when
current and prior are both present and have different `_id`s. -/
def TimepointApi.currentAndPrior (api : TimepointApi) : List Timepoint :=
  let cur := api.current
  let pri := api.prior
  let first : List Timepoint :=
    match cur with
    | some c => [c]
    | none => []
  let second : List Timepoint :=
    match cur, pri with
    | some c, some p => if p._id ≠ c._id then [p] else []
    | _, _ => []
  first ++ second

/-- `baseline()`: first document in natural order whose `timepointType`
is `baseline`. -/
def TimepointApi.baseline (api : TimepointApi) : Option Timepoint :=
  api.timepoints.docs.find? (fun t => t.timepointType == "baseline")

/-- The `_.each` loop of `key()`: each element of `all()` is kept exactly
when its index is below 2 or equal to the last index; the result
collection is read back with no sort, i.e. in insertion order. -/
def keyFilter (n : Nat) : Nat → List Timepoint → List Timepoint
  | _, [] => []
  | i, t :: rest =>
    if i < 2 ∨ i = n - 1 then t :: keyFilter n (i + 1) rest
    else keyFilter n (i + 1) rest

def TimepointApi.key (api : TimepointApi) : List Timepoint :=
  keyFilter api.all.length 0 api.all

/-- `study(studyInstanceUid)`: the elements of `all()` whose
`studyInstanceUids` contains the given id, in `all()` order. -/
def TimepointApi.study (api : TimepointApi) (studyInstanceUid : String) : List Timepoint :=
  api.all.filter (fun t => t.studyInstanceUids.contains studyInstanceUid)

/-- JavaScript `Array.prototype.indexOf`: first index of `s`, `-1` when
absent. -/
def jsIndexOf (s : String) : List String → Int
  | [] => -1
  | x :: rest =>
    if x = s then 0
    else
      let r := jsIndexOf s rest
      if r = -1 then -1 else r + 1

/-- `name(timepoint)`: `"Baseline"` for a baseline-typed timepoint;
otherwise `indexOf` the timepoint's id in the same-patient, same-type
documents sorted by `latestDate` ascending, returning undefined (after a
logged warning) when absent and `"Follow-up <index+1>"` otherwise. -/
def TimepointApi.name (api : TimepointApi) (timepoint : Timepoint) : Option String :=
  if timepoint.timepointType = "baseline" then some "Baseline"
  else
    let followupTimepoints := List.insertionSort dateAsc
      (api.timepoints.docs.filter (fun t =>
        t.patientId == timepoint.patientId && t.timepointType == timepoint.timepointType))
    let followupTimepointIds := followupTimepoints.map (fun t => t.timepointId)
    let index := jsIndexOf timepoint.timepointId followupTimepointIds + 1
    if index = 0 then none
    else some ("Follow-up " ++ toString index)

/-- The `for` loop of `title()`: walking the list, `currentIndex` is reset
to 0 on a document whose id is the configured current id, `index` tracks
`currentIndex` while the latter is a number, and the loop breaks at the
first document whose id is the target's, returning the final `index`. -/
def titleIndex (curId : Option String) (targetId : String) :
    List Timepoint → Int → Option Int → Int
  | [], index, _ => index
  | ct :: rest, index, currentIndex =>
    match (if curId = some ct.timepointId then some 0 else currentIndex : Option Int) with
    | some n =>
      if ct.timepointId = targetId then n
      else titleIndex curId targetId rest n (some (n + 1))
    | none =>
      if ct.timepointId = targetId then index
      else titleIndex curId targetId rest index none

/-- Rendering of a possibly-undefined string inside a template literal:
JavaScript prints `undefined`. -/
def undefinedToString : Option String → String
  | some s => s
  | none => "undefined"

/-- `title(timepoint)`: the timepoint's name, a space, and `"(Current)"`,
`"(Prior)"` or the empty string according to the loop's final index. -/
def TimepointApi.title (api : TimepointApi) (timepoint : Timepoint) : String :=
  let timepointName := api.name timepoint
  let index := titleIndex api.currentTimepointId timepoint.timepointId api.all (-1) none
  let parenthesis := if index = 0 then "(Current)" else if index = 1 then "(Prior)" else ""
  undefinedToString timepointName ++ " " ++ parenthesis

/-- `disassociateStudy(timepointIds, studyInstanceUid)`: unlike the other
operations there is no `isFunction` guard, so an absent `disassociate`
entry makes the call throw a `TypeError` — modelled as `none`.  When
present, the local set is cleared and `retrieveTimepoints()` is re-run
with no patient id. -/
def TimepointApi.disassociateStudy (cfg : DataExchange) (api : TimepointApi)
    (timepointIds : List String) (studyInstanceUid : String) : Option TimepointApi :=
  match cfg.disassociate with
  | none => none
  | some disassociateFn =>
    let _ := disassociateFn timepointIds studyInstanceUid
    let cleared : TimepointApi := { api with timepoints := { api.timepoints with docs := [] } }
    some (TimepointApi.retrieveTimepoints cfg cleared none)

/-- `removeTimepoint(timepointId)`: absent `remove` returns early;
otherwise, after the external call resolves, every local document
matching the `timepointId` is removed. -/
def TimepointApi.removeTimepoint (cfg : DataExchange) (api : TimepointApi)
    (timepointId : String) : TimepointApi :=
  match cfg.remove with
  | none => api
  | some removeFn =>
    let _ := removeFn timepointId
    { api with
      timepoints := { api.timepoints with
        docs := api.timepoints.docs.filter (fun t => !(t.timepointId == timepointId)) } }

/-- `updateTimepoint(timepointId, query)`: absent `update` returns early;
otherwise, after the external call resolves, the modifier is applied to
the first local document matching the `timepointId`. -/
def TimepointApi.updateTimepoint (cfg : DataExchange) (api : TimepointApi)
    (timepointId : String) (query : Timepoint → Timepoint) : TimepointApi :=
  match cfg.update with
  | none => api
  | some updateFn =>
    let _ := updateFn timepointId query
    { api with
      timepoints := api.timepoints.updateFirst (fun t => t.timepointId == timepointId) query }

/-! Specification-side helpers. -/

/-- The fresh internal identifiers `Collection.insert` hands out to a list
of documents inserted in order, starting from counter value `n`: document
`i` gets `_id = n + i`, all other fields are kept. -/
def assignIds (n : Nat) : List Timepoint → List Timepoint
  | [] => []
  | t :: rest => { t with _id := n } :: assignIds (n + 1) rest

/-- The selection `key()` is specified to make, written independently of
the code: the entries of the ordered list whose positional index is `0`,
`1`, or the final index. -/
def specKeySelect (l : List Timepoint) : List Timepoint :=
  ((List.enum l).filter (fun p => decide (p.1 = 0 ∨ p.1 = 1 ∨ p.1 = l.length - 1))).map Prod.snd

/-! Concrete documents and stores used by witnesses and counterexamples. -/

def tpA : Timepoint :=
  { _id := 1, timepointId := "tA", patientId := "p1", timepointType := "baseline",
    latestDate := 10, studyInstanceUids := ["s1"], locked := false }

def tpB : Timepoint :=
  { _id := 2, timepointId := "tB", patientId := "p1", timepointType := "followup",
    latestDate := 20, studyInstanceUids := ["s2"], locked := false }

def tpC : Timepoint :=
  { _id := 3, timepointId := "tC", patientId := "p1", timepointType := "followup",
    latestDate := 30, studyInstanceUids := ["s3"], locked := false }

def tpD : Timepoint :=
  { _id := 4, timepointId := "tD", patientId := "p1", timepointType := "followup",
    latestDate := 40, studyInstanceUids := ["s4"], locked := false }

/-- A populated store whose current timepoint is the most recent one. -/
def apiS : TimepointApi :=
  { currentTimepointId := some "tD", timepoints := { docs := [tpA, tpB, tpC, tpD], nextId := 5 } }

/-- A store with exactly three documents. -/
def api3 : TimepointApi :=
  { currentTimepointId := some "tC", timepoints := { docs := [tpA, tpB, tpC], nextId := 4 } }

/-- A store with one unlocked document which is the current one. -/
def apiL : TimepointApi :=
  { currentTimepointId := some "tA", timepoints := { docs := [tpA], nextId := 2 } }

/-- A store with one pre-existing document. -/
def apiPre : TimepointApi :=
  { currentTimepointId := none, timepoints := { docs := [tpA], nextId := 2 } }

/-- A store whose local collection is empty (counter already advanced). -/
def apiE : TimepointApi :=
  { currentTimepointId := none, timepoints := { docs := [], nextId := 7 } }

/-- A store with no document matching its configured current id. -/
def apiNoCur : TimepointApi :=
  { currentTimepointId := some "missing", timepoints := { docs := [tpA, tpB], nextId := 3 } }

/-- A configuration with every data-exchange entry absent. -/
def cfgEmpty : DataExchange :=
  { retrieve := none, store := none, update := none, remove := none, disassociate := none }

/-- A retrieval function returning one record that carries a pre-existing
internal `_id`. -/
def fnW : Option String → List Timepoint := fun _ => [tpB]

/-- A configuration whose only present entry is `retrieve := fnW`. -/
def cfgW : DataExchange :=
  { retrieve := some fnW, store := none, update := none, remove := none, disassociate := none }

/-- The ranked id list `name()` consults for a non-baseline timepoint: the
ids of the same-patient, same-type documents sorted by `latestDate`
ascending. -/
def followupIds (api : TimepointApi) (timepoint : Timepoint) : List String :=
  (List.insertionSort dateAsc (api.timepoints.docs.filter (fun t =>
    t.patientId == timepoint.patientId && t.timepointType == timepoint.timepointType))).map
    (fun t => t.timepointId)

/-! Order instances for the two sort relations. -/

instance : IsTotal Timepoint dateDesc :=
  ⟨fun a b => Int.le_total b.latestDate a.latestDate⟩

instance : IsTrans Timepoint dateDesc :=
  ⟨fun _ _ _ hab hbc => le_trans hbc hab⟩

instance : IsTotal Timepoint dateAsc :=
  ⟨fun a b => Int.le_total a.latestDate b.latestDate⟩

instance : IsTrans Timepoint dateAsc :=
  ⟨fun _ _ _ hab hbc => le_trans hab hbc⟩

/-! Helper lemmas. -/

theorem current_mem {api : TimepointApi} {c : Timepoint} (h : api.current = some c) :
    c ∈ api.timepoints.docs := by
  unfold TimepointApi.current at h
  cases hc : api.currentTimepointId with
  | none => rw [hc] at h; cases h
  | some cid => rw [hc] at h; exact List.mem_of_find?_eq_some h

theorem prior_eq_head {api : TimepointApi} {c : Timepoint} (h : api.current = some c) :
    api.prior = (List.insertionSort dateDesc (api.timepoints.docs.filter
      (fun t => decide (t.latestDate < c.latestDate)))).head? := by
  unfold TimepointApi.prior
  rw [h]

theorem prior_mem_lt {api : TimepointApi} {c p : Timepoint}
    (hc : api.current = some c) (hp : api.prior = some p) :
    p ∈ api.timepoints.docs ∧ p.latestDate < c.latestDate ∧
      ∀ t ∈ api.timepoints.docs, t.latestDate < c.latestDate → t.latestDate ≤ p.latestDate := by
  rw [prior_eq_head hc] at hp
  set fl := api.timepoints.docs.filter (fun t => decide (t.latestDate < c.latestDate)) with hfl
  obtain ⟨tl, htl⟩ : ∃ tl, List.insertionSort dateDesc fl = p :: tl := by
    cases hs : List.insertionSort dateDesc fl with
    | nil => rw [hs] at hp; cases hp
    | cons a tl =>
      rw [hs] at hp
      simp only [List.head?_cons, Option.some.injEq] at hp
      subst hp
      exact ⟨tl, rfl⟩
  have hpmem : p ∈ fl := by
    have : p ∈ List.insertionSort dateDesc fl := by rw [htl]; exact List.mem_cons_self _ _
    exact (List.mem_insertionSort dateDesc).mp this
  have hpdoc : p ∈ api.timepoints.docs ∧ p.latestDate < c.latestDate := by
    have := List.mem_filter.mp (hfl ▸ hpmem)
    exact ⟨this.1, by simpa using this.2⟩
  refine ⟨hpdoc.1, hpdoc.2, fun t ht hlt => ?_⟩
  have htfl : t ∈ fl := by
    rw [hfl]
    exact List.mem_filter.mpr ⟨ht, by simpa using hlt⟩
  have : t ∈ List.insertionSort dateDesc fl := (List.mem_insertionSort dateDesc).mpr htfl
  rw [htl] at this
  rcases List.mem_cons.mp this with rfl | htl'
  · exact le_refl _
  · have hsorted : List.Sorted dateDesc (p :: tl) := by
      rw [← htl]; exact List.sorted_insertionSort dateDesc fl
    exact List.rel_of_sorted_cons hsorted t htl'

theorem prior_none_iff {api : TimepointApi} {c : Timepoint} (hc : api.current = some c) :
    api.prior = none ↔ ∀ t ∈ api.timepoints.docs, ¬ t.latestDate < c.latestDate := by
  rw [prior_eq_head hc]
  rw [List.head?_eq_none_iff]
  constructor
  · intro hnil t ht hlt
    have : t ∈ List.insertionSort dateDesc (api.timepoints.docs.filter
        (fun t => decide (t.latestDate < c.latestDate))) :=
      (List.mem_insertionSort dateDesc).mpr (List.mem_filter.mpr ⟨ht, by simpa using hlt⟩)
    rw [hnil] at this
    cases this
  · intro hnone
    have hfl : api.timepoints.docs.filter (fun t => decide (t.latestDate < c.latestDate)) = [] := by
      rw [List.filter_eq_nil_iff]
      intro t ht
      simpa using hnone t ht
    rw [hfl]
    rfl

/-- C2 helper and amended statement are proved by unfolding each operation. -/
theorem keyFilter_eq_enumFrom (n : Nat) (l : List Timepoint) :
    ∀ i : Nat, keyFilter n i l = ((List.enumFrom i l).filter
      (fun p => decide (p.1 = 0 ∨ p.1 = 1 ∨ p.1 = n - 1))).map Prod.snd := by
  induction l with
  | nil => intro i; simp [keyFilter]
  | cons t rest ih =>
    intro i
    have hiff : (i < 2 ∨ i = n - 1) ↔ (i = 0 ∨ i = 1 ∨ i = n - 1) := by omega
    by_cases hc : i < 2 ∨ i = n - 1
    · simp only [keyFilter, if_pos hc, List.enumFrom_cons, List.filter_cons,
        decide_eq_true_eq]
      rw [if_pos (hiff.mp hc), List.map_cons, ih (i + 1)]
    · simp only [keyFilter, if_neg hc, List.enumFrom_cons, List.filter_cons,
        decide_eq_true_eq]
      rw [if_neg (fun hcontra => hc (hiff.mpr hcontra)), ih (i + 1)]

theorem keyFilter_all (n : Nat) (l : List Timepoint) :
    ∀ i : Nat, (∀ k, k < l.length → i + k < 2 ∨ i + k = n - 1) → keyFilter n i l = l := by
  induction l with
  | nil => intro i _; rfl
  | cons t rest ih =>
    intro i h
    have h0 := h 0 (by simp)
    rw [keyFilter, if_pos (by simpa using h0)]
    rw [ih (i + 1) (fun k hk => by
      have := h (k + 1) (by simpa using Nat.succ_lt_succ hk)
      omega)]

theorem foldl_insert_docs (l : List Timepoint) :
    ∀ (d : List Timepoint) (n : Nat),
      (l.foldl Collection.insert { docs := d, nextId := n }).docs = d ++ assignIds n l := by
  induction l with
  | nil => intro d n; simp [assignIds]
  | cons t rest ih =>
    intro d n
    rw [List.foldl_cons]
    rw [show Collection.insert ⟨d, n⟩ t = ⟨d ++ [{ t with _id := n }], n + 1⟩ from rfl]
    rw [ih]
    simp [assignIds]

theorem assignIds_getElem? (l : List Timepoint) :
    ∀ (n i : Nat), (assignIds n l)[i]? = (l[i]?).map (fun t => { t with _id := n + i }) := by
  induction l with
  | nil => intro n i; simp [assignIds]
  | cons t rest ih =>
    intro n i
    cases i with
    | zero => simp [assignIds]
    | succ j =>
      simp only [assignIds, List.getElem?_cons_succ, ih (n + 1) j,
        show n + 1 + j = n + (j + 1) from by omega]

/-! Claim theorems. -/

/-- C1 counterexample: `retrieveTimepoints` does not replace the full
in-memory set.  On a store already holding the record `tpA`, retrieving
the single external record `tpB` leaves `all()` with two records — the
pre-existing `tpA` is still present, so `all()` is not exactly the
externally supplied list. -/
theorem retrieveTimepoints_keeps_preexisting_records :
    ((apiPre.retrieveTimepoints cfgW (some "p1")).all).map (fun t => t.timepointId) =
      ["tB", "tA"] ∧
    (fnW (some "p1")).map (fun t => t.timepointId) = ["tB"] := by
  exact ⟨rfl, rfl⟩

/-- C1 (amended): `retrieveTimepoints` appends the fetched records to the
local set rather than replacing it.  Starting from a store whose local
set is empty, `all()` afterwards is exactly the externally supplied
records ordered by `latestDate` descending, and each inserted record
equals the corresponding fetched record with its pre-existing internal
`_id` replaced by a fresh one. -/
theorem retrieveTimepoints_from_empty (cfg : DataExchange)
    (fn : Option String → List Timepoint) (api : TimepointApi) (pid : Option String)
    (hfn : cfg.retrieve = some fn) (hempty : api.timepoints.docs = []) :
    (api.retrieveTimepoints cfg pid).all =
      List.insertionSort dateDesc (assignIds api.timepoints.nextId (fn pid)) ∧
    ∀ i : Nat, (assignIds api.timepoints.nextId (fn pid))[i]? =
      ((fn pid)[i]?).map (fun t => { t with _id := api.timepoints.nextId + i }) := by
  constructor
  · simp only [TimepointApi.retrieveTimepoints, hfn, TimepointApi.all]
    have hmk : api.timepoints = ⟨api.timepoints.docs, api.timepoints.nextId⟩ := rfl
    rw [hmk, hempty, foldl_insert_docs]
    simp
  · exact fun i => assignIds_getElem? (fn pid) api.timepoints.nextId i

/-- C1 witness: retrieving `fnW`'s single record (which carries the
pre-existing `_id = 2`) into the empty store `apiE` (counter at 7) gives
an `all()` holding exactly one record, `tpB` with the fresh `_id = 7`. -/
theorem retrieveTimepoints_from_empty_witness :
    ((apiE.retrieveTimepoints cfgW (some "p1")).all).map (fun t => (t._id, t.timepointId)) =
      [(7, "tB")] ∧ tpB._id = 2 := by
  have h := (retrieveTimepoints_from_empty cfgW fnW apiE (some "p1") rfl rfl).1
  exact ⟨by rw [h]; rfl, rfl⟩

/-- C2 counterexample: `disassociateStudy` has no `isFunction` guard, so
calling it while `configuration.dataExchange.disassociate` is absent
throws a `TypeError` (modelled as `none`) instead of silently doing
nothing. -/
theorem disassociateStudy_absent_throws :
    TimepointApi.disassociateStudy cfgEmpty apiS ["tA"] "s1" = none := rfl

/-- C2 (amended): for `retrieveTimepoints`, `storeTimepoints`,
`updateTimepoint` and `removeTimepoint` an absent data-exchange function
silently disables the operation (the call returns with the store
untouched); `disassociateStudy` alone is unguarded and fails when its
function is absent. -/
theorem absent_exchange_fn_noop (cfg : DataExchange) (api : TimepointApi)
    (pid : Option String) (tid : String) (q : Timepoint → Timepoint)
    (tids : List String) (uid : String) :
    (cfg.retrieve = none → api.retrieveTimepoints cfg pid = api) ∧
    (cfg.store = none → api.storeTimepoints cfg = api) ∧
    (cfg.update = none → api.updateTimepoint cfg tid q = api) ∧
    (cfg.remove = none → api.removeTimepoint cfg tid = api) ∧
    (cfg.disassociate = none → api.disassociateStudy cfg tids uid = none) := by
  refine ⟨?_, ?_, ?_, ?_, ?_⟩ <;> intro h <;>
    simp [TimepointApi.retrieveTimepoints, TimepointApi.storeTimepoints,
      TimepointApi.updateTimepoint, TimepointApi.removeTimepoint,
      TimepointApi.disassociateStudy, h]

/-- C2 witness: on the all-absent configuration every guarded operation
returns the store unchanged, and `disassociateStudy` fails. -/
theorem absent_exchange_fn_noop_witness :
    (apiS.retrieveTimepoints cfgEmpty (some "p1") = apiS) ∧
    (apiS.storeTimepoints cfgEmpty = apiS) ∧
    (apiS.updateTimepoint cfgEmpty "tA" id = apiS) ∧
    (apiS.removeTimepoint cfgEmpty "tA" = apiS) ∧
    (apiS.disassociateStudy cfgEmpty ["tA"] "s1" = none) := by
  have h := absent_exchange_fn_noop cfgEmpty apiS (some "p1") "tA" id ["tA"] "s1"
  exact ⟨h.1 rfl, h.2.1 rfl, h.2.2.1 rfl, h.2.2.2.1 rfl, h.2.2.2.2 rfl⟩

/-- C3 counterexample: `lock` involves no externally supplied async
function at all — its signature does not even consult the data-exchange
configuration — yet on a store with a current record it mutates local
state (the record becomes locked), refuting the claim that `lock` is a
no-op whenever the external function is absent. -/
theorem lock_mutates_without_external_fn :
    apiL.lock.timepoints.docs.map (fun t => t.locked) = [true] ∧
    apiL.timepoints.docs.map (fun t => t.locked) = [false] := by
  exact ⟨rfl, rfl⟩

/-- C3 (amended): `updateTimepoint` and `removeTimepoint` apply their
local mutation exactly when the externally supplied async function is
present (in reaction to its successful completion) and are no-ops when it
is absent; `lock` is purely local — it uses no external function and
applies its mutation whenever a current record exists, being a no-op only
when there is none. -/
theorem local_mutation_semantics (cfg : DataExchange) (api : TimepointApi)
    (tid : String) (q : Timepoint → Timepoint) :
    (cfg.update = none → api.updateTimepoint cfg tid q = api) ∧
    (∀ u, cfg.update = some u →
      api.updateTimepoint cfg tid q =
        { api with
          timepoints := (api.timepoints.updateFirst (fun t => t.timepointId == tid) q) }) ∧
    (cfg.remove = none → api.removeTimepoint cfg tid = api) ∧
    (∀ r, cfg.remove = some r →
      (api.removeTimepoint cfg tid).timepoints.docs =
        api.timepoints.docs.filter (fun t => !(t.timepointId == tid))) ∧
    (api.current = none → api.lock = api) ∧
    (∀ c, api.current = some c →
      api.lock = { api with
        timepoints :=
          (api.timepoints.updateFirst (fun t => t._id == c._id)
            (fun t => { t with locked := true })) }) := by
  refine ⟨fun h => ?_, fun u h => ?_, fun h => ?_, fun r h => ?_, fun h => ?_, fun c h => ?_⟩ <;>
    simp [TimepointApi.updateTimepoint, TimepointApi.removeTimepoint, TimepointApi.lock, h]

/-- C3 witness: with `update` absent the store is unchanged, and `lock`
on a store with a current record applies the local `locked: true`
mutation. -/
theorem local_mutation_semantics_witness :
    (apiS.updateTimepoint cfgEmpty "tA" id = apiS) ∧
    (apiL.lock = { apiL with
      timepoints :=
        (apiL.timepoints.updateFirst (fun t => t._id == tpA._id)
          (fun t => { t with locked := true })) }) := by
  exact ⟨(local_mutation_semantics cfgEmpty apiS "tA" id).1 rfl,
    (local_mutation_semantics cfgEmpty apiL "tA" id).2.2.2.2.2 tpA rfl⟩

/-- C7: `key()` returns exactly the entries of the `all()` ordered list
whose positional index is 0, 1, or the final index, selecting purely by
position in the `latestDate`-descending order (the selection predicate
never inspects `timepointType` or any other field). -/
theorem key_positional (api : TimepointApi) :
    api.key = specKeySelect api.all := by
  unfold TimepointApi.key specKeySelect
  exact keyFilter_eq_enumFrom api.all.length api.all 0

/-- C9: on a store whose `all()` has at most three entries the positional
selection of `key()` covers every index, and since each element is tested
once with a single disjunctive condition no record is inserted twice, so
`key()` equals `all()`. -/
theorem key_small_store (api : TimepointApi) (h : api.all.length ≤ 3) :
    api.key = api.all := by
  unfold TimepointApi.key
  exact keyFilter_all api.all.length api.all 0 (fun k hk => by omega)

/-- C9 witness: on the three-record store `api3`, `key()` equals `all()`. -/
theorem key_small_store_witness : api3.key = api3.all :=
  key_small_store api3 (by decide)

/-- C10: on a store none of whose documents matches the configured
`currentTimepointId` (in particular when it is unset — the constructor
records it only when truthy, so both `mkTimepointApi none` and
`mkTimepointApi (some "")` leave it unset), every read still succeeds:
`current()` is none, `prior()` is none even on a non-empty store, and
`currentAndPrior()` is empty. -/
theorem unmatched_current_reads (api : TimepointApi)
    (h : ∀ t ∈ api.timepoints.docs, some t.timepointId ≠ api.currentTimepointId) :
    api.current = none ∧ api.prior = none ∧ api.currentAndPrior = [] ∧
    (mkTimepointApi none).currentTimepointId = none ∧
    (mkTimepointApi (some "")).currentTimepointId = none := by
  have hcur : api.current = none := by
    unfold TimepointApi.current
    cases hc : api.currentTimepointId with
    | none => rfl
    | some cid =>
      rw [List.find?_eq_none]
      intro t ht
      have := h t ht
      rw [hc] at this
      simpa using fun he => this (by rw [he])
  have hpri : api.prior = none := by
    unfold TimepointApi.prior
    rw [hcur]
  refine ⟨hcur, hpri, ?_, rfl, rfl⟩
  simp [TimepointApi.currentAndPrior, hcur, hpri]

/-- C10 witness: on the non-empty store `apiNoCur`, whose configured id
matches no document, all three reads degrade gracefully. -/
theorem unmatched_current_reads_witness :
    apiNoCur.current = none ∧ apiNoCur.prior = none ∧ apiNoCur.currentAndPrior = [] ∧
    (mkTimepointApi none).currentTimepointId = none ∧
    (mkTimepointApi (some "")).currentTimepointId = none :=
  unmatched_current_reads apiNoCur (by decide)

/-- C4: `prior()` returns none when no record matches the configured
`currentTimepointId`; otherwise any returned record is a stored record
whose `latestDate` is strictly below the current record's — so never
greater than or equal to it — and is maximal among those; and `prior()`
is none exactly when no stored record has a strictly smaller date. -/
theorem prior_spec (api : TimepointApi) :
    (api.current = none → api.prior = none) ∧
    ∀ c, api.current = some c →
      (∀ p, api.prior = some p →
        p ∈ api.timepoints.docs ∧ p.latestDate < c.latestDate ∧
        ∀ t ∈ api.timepoints.docs, t.latestDate < c.latestDate → t.latestDate ≤ p.latestDate) ∧
      (api.prior = none → ∀ t ∈ api.timepoints.docs, ¬ t.latestDate < c.latestDate) := by
  constructor
  · intro h
    simp [TimepointApi.prior, h]
  · intro c hc
    exact ⟨fun p hp => prior_mem_lt hc hp, fun hn => (prior_none_iff hc).mp hn⟩

/-- C4 witness: in `apiS` the current record is `tpD` (date 40) and the
prior is `tpC` (date 30), which is stored, strictly older than current,
and the most recent among the strictly older records. -/
theorem prior_spec_witness :
    tpC ∈ apiS.timepoints.docs ∧ tpC.latestDate < tpD.latestDate ∧
      ∀ t ∈ apiS.timepoints.docs, t.latestDate < tpD.latestDate →
        t.latestDate ≤ tpC.latestDate :=
  (((prior_spec apiS).2 tpD (by decide)).1) tpC (by decide)

/-- C8: under the invariant of at most one record per `timepointId`,
`currentAndPrior()` is `[current, prior]` when both exist with different
internal ids, `[current]` when prior is missing or coincides with
current, `[]` when current is missing, and its entries never repeat a
`timepointId`. -/
theorem currentAndPrior_spec (api : TimepointApi)
    (hnd : (api.timepoints.docs.map (fun t => t.timepointId)).Nodup) :
    (api.current = none → api.currentAndPrior = []) ∧
    (∀ c, api.current = some c → api.prior = none → api.currentAndPrior = [c]) ∧
    (∀ c p, api.current = some c → api.prior = some p → p._id ≠ c._id →
      api.currentAndPrior = [c, p]) ∧
    (∀ c p, api.current = some c → api.prior = some p → p._id = c._id →
      api.currentAndPrior = [c]) ∧
    (api.currentAndPrior.map (fun t => t.timepointId)).Nodup := by
  refine ⟨?_, ?_, ?_, ?_, ?_⟩
  · intro h
    cases hp : api.prior <;> simp [TimepointApi.currentAndPrior, h, hp]
  · intro c hc hp
    simp [TimepointApi.currentAndPrior, hc, hp]
  · intro c p hc hp hne
    simp [TimepointApi.currentAndPrior, hc, hp, hne]
  · intro c p hc hp he
    simp [TimepointApi.currentAndPrior, hc, hp, he]
  · cases hc : api.current with
    | none => cases hp : api.prior <;> simp [TimepointApi.currentAndPrior, hc, hp]
    | some c =>
      cases hp : api.prior with
      | none => simp [TimepointApi.currentAndPrior, hc, hp]
      | some p =>
        by_cases hid : p._id = c._id
        · simp [TimepointApi.currentAndPrior, hc, hp, hid]
        · have hcp : api.currentAndPrior = [c, p] := by
            simp [TimepointApi.currentAndPrior, hc, hp, hid]
          rw [hcp]
          have hmemc : c ∈ api.timepoints.docs := current_mem hc
          obtain ⟨hmemp, hlt, -⟩ := prior_mem_lt hc hp
          have hne : c ≠ p := by
            intro he
            rw [← he] at hlt
            exact lt_irrefl _ hlt
          have hids : c.timepointId ≠ p.timepointId := fun he =>
            hne (List.inj_on_of_nodup_map hnd hmemc hmemp he)
          simp [List.nodup_cons, hids]

/-- C8 witness: in `apiS`, `currentAndPrior()` is `[tpD, tpC]` and its
`timepointId`s are distinct. -/
theorem currentAndPrior_spec_witness :
    apiS.currentAndPrior = [tpD, tpC] ∧
      (apiS.currentAndPrior.map (fun t => t.timepointId)).Nodup :=
  ⟨((currentAndPrior_spec apiS (by decide)).2.2.1) tpD tpC (by decide) (by decide) (by decide),
   (currentAndPrior_spec apiS (by decide)).2.2.2.2⟩

/-- `jsIndexOf` returns either `-1` or a nonnegative index. -/
theorem jsIndexOf_neg_one_or_nonneg (s : String) (l : List String) :
    jsIndexOf s l = -1 ∨ 0 ≤ jsIndexOf s l := by
  induction l with
  | nil => left; rfl
  | cons x rest ih =>
    by_cases hx : x = s
    · right; simp [jsIndexOf, hx]
    · simp only [jsIndexOf, if_neg hx]
      by_cases hr : jsIndexOf s rest = -1
      · left; simp [hr]
      · right
        rcases ih with h | h
        · exact absurd h hr
        · simp only [if_neg hr]
          omega

/-- `jsIndexOf` returns `-1` exactly when the element is absent. -/
theorem jsIndexOf_eq_neg_one_iff (s : String) (l : List String) :
    jsIndexOf s l = -1 ↔ s ∉ l := by
  induction l with
  | nil => simp [jsIndexOf]
  | cons x rest ih =>
    by_cases hx : x = s
    · simp [jsIndexOf, hx]
    · simp only [jsIndexOf, if_neg hx]
      by_cases hr : jsIndexOf s rest = -1
      · have hs : s ∉ x :: rest := by
          simp only [List.mem_cons]
          rintro (h | h)
          · exact hx h.symm
          · exact ih.mp hr h
        simp [if_pos hr, hs]
      · simp only [if_neg hr]
        have h0 : 0 ≤ jsIndexOf s rest := (jsIndexOf_neg_one_or_nonneg s rest).resolve_left hr
        have hne : jsIndexOf s rest + 1 ≠ -1 := by omega
        simp only [hne, false_iff]
        intro hnot
        exact hr (ih.mpr (fun hm => hnot (List.mem_cons_of_mem x hm)))

/-- `jsIndexOf` returns the first index of a present element. -/
theorem jsIndexOf_first (s : String) (l : List String) :
    ∀ k : Nat, l[k]? = some s → s ∉ l.take k → jsIndexOf s l = k := by
  induction l with
  | nil => intro k hk _; simp at hk
  | cons x rest ih =>
    intro k hk htake
    cases k with
    | zero =>
      simp only [List.getElem?_cons_zero, Option.some.injEq] at hk
      simp [jsIndexOf, hk]
    | succ j =>
      simp only [List.take_succ_cons] at htake
      have hx : ¬ x = s := fun he => htake (by rw [he]; exact List.mem_cons_self _ _)
      simp only [List.getElem?_cons_succ] at hk
      have hrest : s ∉ rest.take j := fun hm => htake (List.mem_cons_of_mem x hm)
      have hr := ih j hk hrest
      have hne : jsIndexOf s rest ≠ -1 := by rw [hr]; omega
      simp only [jsIndexOf, if_neg hx, if_neg hne, hr]
      omega

/-- C5: `name()` is `"Baseline"` on any baseline-typed timepoint
regardless of the other records; on a non-baseline timepoint whose id is
absent from the ranked same-patient, same-type ascending-date id list it
is undefined (after a logged warning); and when the id first occurs at
zero-based position `k` of that ranked list it is `"Follow-up (k+1)"`. -/
theorem name_spec (api : TimepointApi) (timepoint : Timepoint) :
    (timepoint.timepointType = "baseline" → api.name timepoint = some "Baseline") ∧
    (timepoint.timepointType ≠ "baseline" →
      (timepoint.timepointId ∉ followupIds api timepoint → api.name timepoint = none) ∧
      (∀ k : Nat, (followupIds api timepoint)[k]? = some timepoint.timepointId →
        timepoint.timepointId ∉ (followupIds api timepoint).take k →
        api.name timepoint = some ("Follow-up " ++ toString ((k : Int) + 1)))) := by
  constructor
  · intro h
    simp [TimepointApi.name, h]
  · intro h
    have hunfold : api.name timepoint =
        (if jsIndexOf timepoint.timepointId (followupIds api timepoint) + 1 = 0 then none
         else some ("Follow-up " ++
           toString (jsIndexOf timepoint.timepointId (followupIds api timepoint) + 1))) := by
      simp only [TimepointApi.name, if_neg h]
      rfl
    constructor
    · intro hnotmem
      rw [hunfold, (jsIndexOf_eq_neg_one_iff _ _).mpr hnotmem]
      norm_num
    · intro k hk htake
      rw [hunfold, jsIndexOf_first _ _ k hk htake]
      have : ¬ ((k : Int) + 1 = 0) := by omega
      rw [if_neg this]

/-- C5 witness: in `apiS` the ranked follow-up id list is
`["tB", "tC", "tD"]`; `tpC` sits at zero-based position 1, so its name is
`"Follow-up 2"`; and on the empty store `apiE` the follow-up `tpB` is
absent from the ranked list, so `name` is undefined. -/
theorem name_spec_witness :
    apiS.name tpC = some ("Follow-up " ++ toString ((1 : Int) + 1)) ∧
    apiE.name tpB = none :=
  ⟨((name_spec apiS tpC).2 (by decide)).2 1 (by decide) (by decide),
   ((name_spec apiE tpB).2 (by decide)).1 (by decide)⟩

/-- One loop step before the current record was found, on a record that is
neither the current one nor the target: the walk just continues. -/
theorem titleIndex_step_skip (cid tid : String) (u : Timepoint) (rest : List Timepoint)
    (idx : Int) (hcu : u.timepointId ≠ cid) (htu : u.timepointId ≠ tid) :
    titleIndex (some cid) tid (u :: rest) idx none =
      titleIndex (some cid) tid rest idx none := by
  simp only [titleIndex]
  rw [if_neg (show ¬ (some cid = some u.timepointId) by
    simp only [Option.some.injEq]
    exact fun he => hcu he.symm)]
  simp [htu]

/-- One loop step before the current record was found, on the target
record (which is not the current one): the loop breaks with the index
still at its initial value. -/
theorem titleIndex_step_break (cid tid : String) (u : Timepoint) (rest : List Timepoint)
    (idx : Int) (hcu : u.timepointId ≠ cid) (htu : u.timepointId = tid) :
    titleIndex (some cid) tid (u :: rest) idx none = idx := by
  simp only [titleIndex]
  rw [if_neg (show ¬ (some cid = some u.timepointId) by
    simp only [Option.some.injEq]
    exact fun he => hcu he.symm)]
  simp [htu]

/-- One loop step on the current record: the relative counter starts at 0;
the loop breaks with 0 when the current record is also the target and
otherwise continues with the counter at 1. -/
theorem titleIndex_step_cur (cid tid : String) (u : Timepoint) (rest : List Timepoint)
    (idx : Int) (hcu : u.timepointId = cid) :
    titleIndex (some cid) tid (u :: rest) idx none =
      if u.timepointId = tid then 0 else titleIndex (some cid) tid rest 0 (some 1) := by
  simp only [titleIndex]
  rw [if_pos (show some cid = some u.timepointId by rw [hcu])]
  norm_num

/-- One loop step after the current record, on a record that is neither
the current one nor the target: the counter advances. -/
theorem titleIndex_step_count (cid tid : String) (u : Timepoint) (rest : List Timepoint)
    (idx n : Int) (hcu : u.timepointId ≠ cid) (htu : u.timepointId ≠ tid) :
    titleIndex (some cid) tid (u :: rest) idx (some n) =
      titleIndex (some cid) tid rest n (some (n + 1)) := by
  simp only [titleIndex]
  rw [if_neg (show ¬ (some cid = some u.timepointId) by
    simp only [Option.some.injEq]
    exact fun he => hcu he.symm)]
  simp [htu]

/-- One loop step after the current record, on the target record: the loop
breaks returning the current counter value. -/
theorem titleIndex_step_found (cid tid : String) (u : Timepoint) (rest : List Timepoint)
    (idx n : Int) (hcu : u.timepointId ≠ cid) (htu : u.timepointId = tid) :
    titleIndex (some cid) tid (u :: rest) idx (some n) = n := by
  simp only [titleIndex]
  rw [if_neg (show ¬ (some cid = some u.timepointId) by
    simp only [Option.some.injEq]
    exact fun he => hcu he.symm)]
  simp [htu]

/-- Walking a prefix that contains neither the current id nor the target
id and then hitting the target before the current record: the loop breaks
with the index still at its initial value. -/
theorem titleIndex_break_before (cid tid : String) (T : Timepoint) (B : List Timepoint)
    (hT : T.timepointId = tid) (hTc : T.timepointId ≠ cid) :
    ∀ (A : List Timepoint) (idx : Int),
      (∀ u ∈ A, u.timepointId ≠ tid) →
      (∀ u ∈ A, u.timepointId ≠ cid) →
      titleIndex (some cid) tid (A ++ T :: B) idx none = idx := by
  intro A
  induction A with
  | nil =>
    intro idx _ _
    rw [List.nil_append]
    exact titleIndex_step_break cid tid T B idx hTc hT
  | cons u A' ih =>
    intro idx h1 h2
    rw [List.cons_append]
    rw [titleIndex_step_skip cid tid u (A' ++ T :: B) idx
      (h2 u (List.mem_cons_self u A')) (h1 u (List.mem_cons_self u A'))]
    exact ih idx (fun v hv => h1 v (List.mem_cons_of_mem u hv))
      (fun v hv => h2 v (List.mem_cons_of_mem u hv))

/-- Walking a prefix that contains neither the current id nor the target
id and then reaching the current record: the loop returns 0 when the
current record is the target and otherwise continues over the remainder
with the counter at 1. -/
theorem titleIndex_reach_current (cid tid : String) (C : Timepoint) (B : List Timepoint)
    (hC : C.timepointId = cid) :
    ∀ (A : List Timepoint) (idx : Int),
      (∀ u ∈ A, u.timepointId ≠ tid) →
      (∀ u ∈ A, u.timepointId ≠ cid) →
      titleIndex (some cid) tid (A ++ C :: B) idx none =
        if C.timepointId = tid then 0 else titleIndex (some cid) tid B 0 (some 1) := by
  intro A
  induction A with
  | nil =>
    intro idx _ _
    rw [List.nil_append]
    exact titleIndex_step_cur cid tid C B idx hC
  | cons u A' ih =>
    intro idx h1 h2
    rw [List.cons_append]
    rw [titleIndex_step_skip cid tid u (A' ++ C :: B) idx
      (h2 u (List.mem_cons_self u A')) (h1 u (List.mem_cons_self u A'))]
    exact ih idx (fun v hv => h1 v (List.mem_cons_of_mem u hv))
      (fun v hv => h2 v (List.mem_cons_of_mem u hv))

/-- Counting after the current record was found: skipping a block that
contains neither the current id nor the target id and then hitting the
target returns the counter advanced by the block's length. -/
theorem titleIndex_after (cid tid : String) (T : Timepoint) (B₂ : List Timepoint)
    (hT : T.timepointId = tid) (hTc : T.timepointId ≠ cid) :
    ∀ (B₁ : List Timepoint) (idx n : Int),
      (∀ u ∈ B₁, u.timepointId ≠ tid) →
      (∀ u ∈ B₁, u.timepointId ≠ cid) →
      titleIndex (some cid) tid (B₁ ++ T :: B₂) idx (some n) = n + B₁.length := by
  intro B₁
  induction B₁ with
  | nil =>
    intro idx n _ _
    rw [List.nil_append]
    rw [titleIndex_step_found cid tid T B₂ idx n hTc hT]
    simp
  | cons u B' ih =>
    intro idx n h1 h2
    rw [List.cons_append]
    rw [titleIndex_step_count cid tid u (B' ++ T :: B₂) idx n
      (h2 u (List.mem_cons_self u B')) (h1 u (List.mem_cons_self u B'))]
    rw [ih n (n + 1) (fun v hv => h1 v (List.mem_cons_of_mem u hv))
      (fun v hv => h2 v (List.mem_cons_of_mem u hv))]
    simp only [List.length_cons]
    push_cast
    ring

/-- The final loop index of `title()` as a function of positions in the
walked list: with the current id sitting at position `pc` and the target
id at position `pt` (ids pairwise distinct), the index is the relative
offset `pt - pc` when the target is at or after the current record, and
stays `-1` when the target is hit first or coincides with no later
record. -/
theorem titleIndex_position (l : List Timepoint)
    (hnd : (l.map (fun u => u.timepointId)).Nodup)
    (pc pt : Nat) (hpc : pc < l.length) (hpt : pt < l.length) :
    titleIndex (some ((l.get ⟨pc, hpc⟩).timepointId)) ((l.get ⟨pt, hpt⟩).timepointId)
      l (-1) none = if pt < pc then -1 else (pt : Int) - pc := by
  have hids : ∀ i j (hi : i < l.length) (hj : j < l.length), i ≠ j →
      (l.get ⟨i, hi⟩).timepointId ≠ (l.get ⟨j, hj⟩).timepointId := by
    intro i j hi hj hne he
    apply hne
    have hi2 : i < (l.map (fun u => u.timepointId)).length := by simpa using hi
    have hj2 : j < (l.map (fun u => u.timepointId)).length := by simpa using hj
    have hmap : (l.map (fun u => u.timepointId))[i] = (l.map (fun u => u.timepointId))[j] := by
      rw [List.getElem_map, List.getElem_map]
      simpa [List.get_eq_getElem] using he
    exact (List.Nodup.getElem_inj_iff hnd).mp hmap
  have hmemtake : ∀ (m : Nat) (k : Nat) (hk : k < l.length), m ≤ k →
      ∀ u ∈ l.take m, u.timepointId ≠ (l.get ⟨k, hk⟩).timepointId := by
    intro m k hk hmk u hu
    obtain ⟨j, hj, hju⟩ := List.mem_take_iff_getElem.mp hu
    have hj1 : j < m := lt_of_lt_of_le hj (min_le_left _ _)
    have hj2 : j < l.length := lt_of_lt_of_le hj (min_le_right _ _)
    rw [← hju, show l[j] = l.get ⟨j, hj2⟩ from by simp [List.get_eq_getElem]]
    exact hids j k hj2 hk (by omega)
  rcases lt_trichotomy pt pc with hlt | heq | hgt
  · -- the target precedes the current record: the loop breaks at -1
    have hdecomp : l.take pt ++ l.get ⟨pt, hpt⟩ :: l.drop (pt + 1) = l := by
      conv_rhs => rw [← List.take_append_drop pt l]
      congr 1
      rw [List.get_eq_getElem]
      exact List.getElem_cons_drop l pt hpt
    have hb := titleIndex_break_before ((l.get ⟨pc, hpc⟩).timepointId)
      ((l.get ⟨pt, hpt⟩).timepointId) (l.get ⟨pt, hpt⟩) (l.drop (pt + 1)) rfl
      (hids pt pc hpt hpc (by omega)) (l.take pt) (-1)
      (hmemtake pt pt hpt (le_refl pt))
      (hmemtake pt pc hpc (by omega))
    rw [hdecomp] at hb
    rw [hb, if_pos hlt]
  · -- the target is the current record: the loop returns 0
    subst heq
    have hdecomp : l.take pt ++ l.get ⟨pt, hpt⟩ :: l.drop (pt + 1) = l := by
      conv_rhs => rw [← List.take_append_drop pt l]
      congr 1
      rw [List.get_eq_getElem]
      exact List.getElem_cons_drop l pt hpt
    have hr := titleIndex_reach_current ((l.get ⟨pt, hpc⟩).timepointId)
      ((l.get ⟨pt, hpt⟩).timepointId) (l.get ⟨pt, hpt⟩) (l.drop (pt + 1)) rfl
      (l.take pt) (-1)
      (hmemtake pt pt hpt (le_refl pt))
      (hmemtake pt pt hpc (le_refl pt))
    rw [hdecomp] at hr
    rw [hr, if_pos rfl, if_neg (lt_irrefl pt)]
    omega
  · -- the target strictly follows the current record
    obtain ⟨m, rfl⟩ : ∃ m, pt = pc + 1 + m := ⟨pt - pc - 1, by omega⟩
    have hdecompC : l.take pc ++ l.get ⟨pc, hpc⟩ :: l.drop (pc + 1) = l := by
      conv_rhs => rw [← List.take_append_drop pc l]
      congr 1
      rw [List.get_eq_getElem]
      exact List.getElem_cons_drop l pc hpc
    have hr := titleIndex_reach_current ((l.get ⟨pc, hpc⟩).timepointId)
      ((l.get ⟨pc + 1 + m, hpt⟩).timepointId) (l.get ⟨pc, hpc⟩) (l.drop (pc + 1)) rfl
      (l.take pc) (-1)
      (hmemtake pc (pc + 1 + m) hpt (by omega))
      (hmemtake pc pc hpc (le_refl pc))
    rw [hdecompC] at hr
    rw [hr, if_neg (hids pc (pc + 1 + m) hpc hpt (by omega))]
    have hmB : m < (l.drop (pc + 1)).length := by
      rw [List.length_drop]
      omega
    have hgetB : (l.drop (pc + 1)).get ⟨m, hmB⟩ = l.get ⟨pc + 1 + m, hpt⟩ := by
      simp only [List.get_eq_getElem]
      exact List.getElem_drop l
    have hdecompB : (l.drop (pc + 1)).take m ++
        l.get ⟨pc + 1 + m, hpt⟩ :: (l.drop (pc + 1)).drop (m + 1) = l.drop (pc + 1) := by
      conv_rhs => rw [← List.take_append_drop m (l.drop (pc + 1))]
      congr 1
      rw [← hgetB, List.get_eq_getElem]
      exact List.getElem_cons_drop (l.drop (pc + 1)) m hmB
    have hB1 : ∀ u ∈ (l.drop (pc + 1)).take m,
        u.timepointId ≠ (l.get ⟨pc + 1 + m, hpt⟩).timepointId := by
      intro u hu
      obtain ⟨j, hj, hju⟩ := List.mem_take_iff_getElem.mp hu
      have hj1 : j < m := lt_of_lt_of_le hj (min_le_left _ _)
      have hj2 : j < (l.drop (pc + 1)).length := lt_of_lt_of_le hj (min_le_right _ _)
      have hjl : pc + 1 + j < l.length := by
        rw [List.length_drop] at hj2
        omega
      have hjget : (l.drop (pc + 1))[j] = l.get ⟨pc + 1 + j, hjl⟩ := by
        simp only [List.get_eq_getElem]
        exact List.getElem_drop l
      rw [← hju, hjget]
      exact hids (pc + 1 + j) (pc + 1 + m) hjl hpt (by omega)
    have hB2 : ∀ u ∈ (l.drop (pc + 1)).take m,
        u.timepointId ≠ (l.get ⟨pc, hpc⟩).timepointId := by
      intro u hu
      obtain ⟨j, hj, hju⟩ := List.mem_take_iff_getElem.mp hu
      have hj2 : j < (l.drop (pc + 1)).length := lt_of_lt_of_le hj (min_le_right _ _)
      have hjl : pc + 1 + j < l.length := by
        rw [List.length_drop] at hj2
        omega
      have hjget : (l.drop (pc + 1))[j] = l.get ⟨pc + 1 + j, hjl⟩ := by
        simp only [List.get_eq_getElem]
        exact List.getElem_drop l
      rw [← hju, hjget]
      exact hids (pc + 1 + j) pc hjl hpc (by omega)
    have ha := titleIndex_after ((l.get ⟨pc, hpc⟩).timepointId)
      ((l.get ⟨pc + 1 + m, hpt⟩).timepointId) (l.get ⟨pc + 1 + m, hpt⟩)
      ((l.drop (pc + 1)).drop (m + 1)) rfl
      (hids (pc + 1 + m) pc hpt hpc (by omega))
      ((l.drop (pc + 1)).take m) 0 1 hB1 hB2
    rw [hdecompB] at ha
    rw [ha, if_neg (by omega : ¬ pc + 1 + m < pc)]
    rw [List.length_take, List.length_drop]
    have : m ⊓ (l.length - (pc + 1)) = m := Nat.min_eq_left (by omega)
    rw [this]
    push_cast
    ring

/-- C6: `title(timepoint)` is `name(timepoint)` plus a positional suffix
obtained by walking `all()` in descending-date order from the record
matching `currentTimepointId` and stopping at the target: with the
current record at position `pc` of `all()` and the target at position
`pt` (ids pairwise distinct), the suffix is `"(Current)"` at relative
offset 0, `"(Prior)"` at offset 1, and empty for every other record. -/
theorem title_spec (api : TimepointApi) (timepoint : Timepoint)
    (hnd : (api.all.map (fun u => u.timepointId)).Nodup)
    (pc pt : Nat) (hpc : pc < api.all.length) (hpt : pt < api.all.length)
    (hcid : api.currentTimepointId = some ((api.all.get ⟨pc, hpc⟩).timepointId))
    (htid : timepoint.timepointId = (api.all.get ⟨pt, hpt⟩).timepointId) :
    api.title timepoint = undefinedToString (api.name timepoint) ++ " " ++
      (if pt = pc then "(Current)" else if pt = pc + 1 then "(Prior)" else "") := by
  have hidx := titleIndex_position api.all hnd pc pt hpc hpt
  simp only [TimepointApi.title]
  rw [hcid, htid, hidx]
  rcases lt_trichotomy pt pc with hlt | heq | hgt
  · rw [if_pos hlt, if_neg (by omega : ¬ (-1 : Int) = 0),
      if_neg (by omega : ¬ (-1 : Int) = 1),
      if_neg (by omega : ¬ pt = pc), if_neg (by omega : ¬ pt = pc + 1)]
  · rw [if_neg (by omega : ¬ pt < pc),
      if_pos (by omega : (pt : Int) - pc = 0), if_pos heq]
  · by_cases h2 : pt = pc + 1
    · rw [if_neg (by omega : ¬ pt < pc), if_neg (by omega : ¬ (pt : Int) - pc = 0),
        if_pos (by omega : (pt : Int) - pc = 1), if_neg (by omega : ¬ pt = pc), if_pos h2]
    · rw [if_neg (by omega : ¬ pt < pc), if_neg (by omega : ¬ (pt : Int) - pc = 0),
        if_neg (by omega : ¬ (pt : Int) - pc = 1), if_neg (by omega : ¬ pt = pc), if_neg h2]

/-- C6 witness: in `apiS` the walked order is `[tpD, tpC, tpB, tpA]` with
`tpD` current; `tpC` sits at offset 1 and its title ends in `"(Prior)"`. -/
theorem title_spec_witness : apiS.title tpC = "Follow-up 2 (Prior)" := by
  have h := title_spec apiS tpC (by decide) 0 1 (by decide) (by decide) (by decide) (by decide)
  rw [h]
  rfl
